import Mathlib

/-!
Verification of the Generate-Content repository (a Red Hat learning-path
service). The definitions below are a shallow embedding of
`src/services/redhatContentService.js` and `src/services/llmService.js`:
JavaScript strings are Lean `String`s manipulated through their character
lists, JavaScript objects are Lean structures, stable `Array.prototype.sort`
is modelled by insertion sort (which implements the stable-sort semantics
mandated by ES2019 for a consistent comparator), thrown-and-caught
JavaScript exceptions are modelled by `Option`/`Except` values, and the
network plus the HTML scraper and the JSON parser are oracles passed in as
function arguments. Character-level operations (lowercasing, the whitespace
class) are modelled on their ASCII core.
-/

namespace GenerateContent

/-! ### String primitives -/

/-- Lowercased character list of a string; models `String.prototype.toLowerCase`
on its ASCII core. -/
def lowerL (s : String) : List Char := s.data.map Char.toLower

/-- Boolean prefix test on character lists. -/
def isPrefixB : List Char → List Char → Bool
  | [], _ => true
  | _ :: _, [] => false
  | a :: as, b :: bs => a = b && isPrefixB as bs

/-- Boolean contiguous-substring test; models `String.prototype.includes`. -/
def isInfixB (needle : List Char) : List Char → Bool
  | [] => needle.isEmpty
  | b :: bs => isPrefixB needle (b :: bs) || isInfixB needle bs

/-- Convenience wrapper: `needle` occurs inside the character list `hay`. -/
def inclL (hay : List Char) (needle : String) : Bool := isInfixB needle.data hay

/-- Replace every maximal run of whitespace by a single space (the regex
`\s+` replaced by a space). The flag records whether the previous character
was whitespace. -/
def collapseWsAux : Bool → List Char → List Char
  | _, [] => []
  | prevWs, c :: cs =>
    if c.isWhitespace then
      if prevWs then collapseWsAux true cs
      else ' ' :: collapseWsAux true cs
    else c :: collapseWsAux false cs

/-- Collapse whitespace runs, starting outside a run. -/
def collapseWs (l : List Char) : List Char := collapseWsAux false l

/-- Strip leading and trailing whitespace; models `String.prototype.trim`. -/
def trimL (l : List Char) : List Char :=
  ((l.dropWhile Char.isWhitespace).reverse.dropWhile Char.isWhitespace).reverse

/-! ### Content classifier (redhatContentService.js) -/

/-- Characters kept by `cleanTitle`: the class `[\w\s\-()\[\].,:;!?'"]`. -/
def isTitleChar (c : Char) : Bool :=
  c.isAlphanum || c = '_' || c.isWhitespace ||
    ['-', '(', ')', '[', ']', '.', ',', ':', ';', '!', '?', Char.ofNat 39, '"'].contains c

/-- Model of `cleanTitle` (lines 526-531): collapse whitespace, strip characters
outside the safe set, trim. -/
def cleanTitle (title : String) : String :=
  ⟨trimL ((collapseWs title.data).filter isTitleChar)⟩

/-- Drop a leading `...` together with the whitespace that follows it
(the regex `^\.\.\.\s*`). -/
def stripLeadingEllipsis (l : List Char) : List Char :=
  if isPrefixB "...".data l then (l.drop 3).dropWhile Char.isWhitespace else l

/-- Drop a trailing `...` together with the whitespace before it
(the regex `\s*\.\.\.$`). -/
def stripTrailingEllipsis (l : List Char) : List Char :=
  let r := l.reverse
  if isPrefixB "...".data r then ((r.drop 3).dropWhile Char.isWhitespace).reverse else l

/-- Model of `cleanDescription` (lines 536-542). -/
def cleanDescription (description : String) : String :=
  ⟨trimL (stripTrailingEllipsis (stripLeadingEllipsis (collapseWs description.data)))⟩

/-- Model of `extractDomain` (lines 682-688), that is
`new URL(url).hostname.toLowerCase()` with `"unknown"` on failure. The model
covers http and https URLs: the hostname is the authority component of the
lowercased URL without userinfo and port; a URL without an http or https
scheme (for which the `URL` constructor throws) is mapped to `"unknown"`.
The helper `hostOf` takes the URL text after the scheme and strips the path,
query, fragment, userinfo and port, leaving the hostname. -/
def hostOf (rest : List Char) : List Char :=
  (((rest.takeWhile (fun c => !(c = '/' || c = '?' || c = '#'))).reverse.takeWhile
      (fun c => c ≠ '@')).reverse).takeWhile (fun c => c ≠ ':')

/-- The hostname of an http or https URL, lowercased; `"unknown"` otherwise. -/
def extractDomain (url : String) : String :=
  let lu := lowerL url
  let rest : List Char :=
    if isPrefixB "https://".data lu then lu.drop 8
    else if isPrefixB "http://".data lu then lu.drop 7
    else []
  let host := hostOf rest
  if host.isEmpty then "unknown" else ⟨host⟩

/-- Model of `determineContentType` (lines 547-585): ordered substring
heuristics over the lowercased URL and title. -/
def determineContentType (url : String) (title : String) : String :=
  if url = "" then "unknown"
  else
    let urlLower := lowerL url
    let titleLower := lowerL title
    if inclL urlLower "youtube.com" || inclL urlLower "youtu.be" then "video"
    else if inclL urlLower "tv.redhat.com" then "video"
    else if inclL urlLower "docs." || inclL urlLower "documentation" ||
        inclL urlLower "access.redhat.com" || inclL titleLower "documentation" ||
        inclL titleLower "guide" then "documentation"
    else if inclL urlLower "training" || inclL urlLower "certification" ||
        inclL urlLower "course" || inclL titleLower "training" ||
        inclL titleLower "certification" || inclL titleLower "course" then "training"
    else if inclL urlLower ".pdf" then "pdf"
    else if inclL titleLower "video" || inclL titleLower "tutorial" ||
        inclL titleLower "demo" then "video"
    else "article"

/-- The fixed keyword set of `isRedHatRelated` (lines 490-494). -/
def redhatKeywords : List String :=
  ["red hat", "redhat", "openshift", "ansible", "rhel",
   "fedora", "centos", "jboss", "wildfly", "ceph",
   "gluster", "satellite", "insights", "quay", "tekton"]

/-- The fixed domain allowlist of `isRedHatRelated` (lines 496-500). -/
def redhatDomains : List String :=
  ["redhat.com", "tv.redhat.com", "access.redhat.com",
   "docs.redhat.com", "docs.ansible.com", "console.redhat.com",
   "catalog.redhat.com", "developers.redhat.com"]

/-- The concatenated lowercase text `(title + space + url + space +
description).toLowerCase()`; lowercasing distributes over concatenation. -/
def contentOf (title url description : String) : List Char :=
  lowerL title ++ ' ' :: (lowerL url ++ ' ' :: lowerL description)

/-- Model of `isRedHatRelated` (lines 489-521). Note that the domain check is a
substring test on the whole lowercased URL and the YouTube test is a
case-sensitive substring test on the raw URL, exactly as in the source. -/
def isRedHatRelated (title url description : String) : Bool :=
  let content := contentOf title url description
  let hasRedHatKeywords := redhatKeywords.any (fun kw => inclL content kw)
  let hasRedHatDomain := redhatDomains.any (fun d => inclL (lowerL url) d)
  if isInfixB "youtube.com".data url.data then
    hasRedHatKeywords &&
      (inclL (lowerL title) "red hat" || inclL (lowerL description) "red hat" ||
       inclL (lowerL title) "openshift" || inclL (lowerL title) "ansible")
  else
    hasRedHatKeywords || hasRedHatDomain

/-! ### Search results and the search client -/

/-- One discovered resource, as pushed by `performDuckDuckGoSearch`
(lines 222-230). A missing JavaScript field is modelled by the empty string. -/
structure ContentResult where
  title : String
  url : String
  description : String
  type : String
  source : String
  searchQuery : String
  domain : String
deriving DecidableEq

/-- One row extracted from the search-result HTML, after the selector
fallbacks and the redirect-URL cleanup of lines 191-218: the raw title, the
cleaned absolute URL and the raw snippet. -/
structure RawRow where
  title : String
  url : String
  description : String
deriving DecidableEq

/-- The guard-and-push body of the scraping loop (lines 221-232): keep a row
only if the raw title and URL are truthy (non-empty) and the row is Red Hat
related, and annotate it. -/
def processRow (source query : String) (row : RawRow) : Option ContentResult :=
  if row.title ≠ "" ∧ row.url ≠ "" ∧ isRedHatRelated row.title row.url row.description = true then
    some { title := cleanTitle row.title
           url := row.url
           description := cleanDescription row.description
           type := determineContentType row.url row.title
           source := source
           searchQuery := query
           domain := extractDomain row.url }
  else none

/-- Model of `performDuckDuckGoSearch` (lines 150-250). The oracle `fetch`
models the network fetch plus the HTML selector extraction: `none` is a
network or parse failure (the catch branch, which logs and falls off the end
of the function, returning `undefined` because the fallback return is
commented out), `some rows` the extracted rows. At most `maxResults` rows are
examined, and each surviving row is processed by `processRow`. -/
def performDuckDuckGoSearch (maxResults : Nat) (fetch : String → Option (List RawRow))
    (source query : String) : Option (List ContentResult) :=
  match fetch query with
  | none => none
  | some rows => some ((rows.take maxResults).filterMap (processRow source query))

/-- The inner query loop of a category search under the per-topic try/catch
(for example lines 42-45 inside 35-48). When a query fails,
`performDuckDuckGoSearch` returns `undefined` and spreading it into
`searchResults.push(...)` throws a TypeError that is caught by the per-topic
handler, so the results accumulated so far survive and the remaining queries
of this topic are skipped. -/
def runTopicQueries (maxResults : Nat) (fetch : String → Option (List RawRow))
    (source : String) (acc : List ContentResult) : List String → List ContentResult
  | [] => acc
  | query :: rest =>
    match performDuckDuckGoSearch maxResults fetch source query with
    | none => acc
    | some results => runTopicQueries maxResults fetch source (acc ++ results) rest

/-- The documentation queries for one topic (lines 37-40). -/
def docsQueries (topic : String) : List String :=
  ["\"Red Hat\" \"" ++ topic ++ "\" documentation"]

/-- The training queries for one topic (lines 75-78). -/
def trainingQueries (topic : String) : List String :=
  ["\"Red Hat training\" \"" ++ topic ++ "\"",
   "\"Red Hat certification\" \"" ++ topic ++ "\""]

/-- The video queries for one topic (lines 112-124; only the first query is
active in the source). -/
def videoQueries (topic : String) : List String :=
  ["site:tv.redhat.com \"" ++ topic ++ "\""]

/-- The shared shape of the three category searches: run the per-topic query
loops over a shared accumulator and deduplicate the union. -/
def searchCategory (maxResults : Nat) (fetch : String → Option (List RawRow))
    (source : String) (queriesOf : String → List String) (topics : List String)
    (dedup : List ContentResult → List ContentResult) : List ContentResult :=
  dedup (topics.foldl (fun acc topic => runTopicQueries maxResults fetch source acc (queriesOf topic)) [])

/-! ### Result aggregator -/

/-- Characters kept by the title normalization of the deduplication key:
`[a-z0-9\s]` after lowercasing. -/
def isKeyChar (c : Char) : Bool := c.isLower || c.isDigit || c.isWhitespace

/-- The deduplication key of lines 647-654: the first 50 characters of the
lowercased, alphanumeric-plus-space, whitespace-collapsed, trimmed title,
concatenated with a dash and the domain recomputed from the URL. -/
def dedupKey (r : ContentResult) : String :=
  let normalizedTitle := trimL (collapseWs ((lowerL r.title).filter isKeyChar))
  (⟨normalizedTitle.take 50⟩ : String) ++ "-" ++ extractDomain r.url

/-- The first-seen-wins filtering pass of `deduplicateResults`
(lines 641-660): skip results with a falsy title or URL, and keep only the
first result per key, threading the set of seen keys. -/
def dedupSurvivors (seen : List String) : List ContentResult → List ContentResult
  | [] => []
  | result :: rest =>
    if result.title = "" ∨ result.url = "" then dedupSurvivors seen rest
    else
      if dedupKey result ∈ seen then dedupSurvivors seen rest
      else result :: dedupSurvivors (dedupKey result :: seen) rest

/-- The content-type priority table of line 671 with the `|| 6` default. -/
def typeOrderOf (t : String) : Nat :=
  if t = "video" then 1
  else if t = "training" then 2
  else if t = "documentation" then 3
  else if t = "article" then 4
  else if t = "pdf" then 5
  else 6

/-- The comparator of the final sort (lines 663-676): official domains first,
then by content-type priority. -/
def compareResults (a b : ContentResult) : Int :=
  let aIsRedHatDomain := inclL a.domain.data "redhat.com"
  let bIsRedHatDomain := inclL b.domain.data "redhat.com"
  if aIsRedHatDomain && !bIsRedHatDomain then -1
  else if !aIsRedHatDomain && bIsRedHatDomain then 1
  else (typeOrderOf a.type : Int) - (typeOrderOf b.type : Int)

/-- The total preorder induced by the comparator: `a` may come before `b`. -/
def resultLE (a b : ContentResult) : Prop := compareResults a b ≤ 0

instance : DecidableRel resultLE :=
  fun a b => inferInstanceAs (Decidable (compareResults a b ≤ 0))

instance : IsTotal ContentResult resultLE where
  total a b := by
    unfold resultLE compareResults
    by_cases h1 : inclL a.domain.data "redhat.com" = true <;>
      by_cases h2 : inclL b.domain.data "redhat.com" = true <;>
        simp [h1, h2] <;> omega

instance : IsTrans ContentResult resultLE where
  trans a b c hab hbc := by
    unfold resultLE compareResults at hab hbc ⊢
    by_cases h1 : inclL a.domain.data "redhat.com" = true <;>
      by_cases h2 : inclL b.domain.data "redhat.com" = true <;>
        by_cases h3 : inclL c.domain.data "redhat.com" = true <;>
          simp [h1, h2, h3] at hab hbc ⊢ <;> omega

/-- Model of `deduplicateResults` (lines 640-677): the first-seen-wins pass
followed by the stable sort with the relevance comparator. Insertion sort
with the reflexive closure of the comparator implements the stable-sort
semantics that ECMAScript guarantees for `Array.prototype.sort`. -/
def deduplicateResults (results : List ContentResult) : List ContentResult :=
  List.insertionSort resultLE (dedupSurvivors [] results)

/-- The three category searches (lines 28-61, 66-99, 104-145) with the network
oracle abstracted. -/
def searchRedHatDocs (maxResults : Nat) (fetch : String → Option (List RawRow))
    (topics : List String) : List ContentResult :=
  searchCategory maxResults fetch "Red Hat Docs" docsQueries topics deduplicateResults

/-- The training category search; two queries per topic. -/
def searchRedHatTraining (maxResults : Nat) (fetch : String → Option (List RawRow))
    (topics : List String) : List ContentResult :=
  searchCategory maxResults fetch "Red Hat Training" trainingQueries topics deduplicateResults

/-- The video category search; one query per topic. -/
def searchRedHatVideos (maxResults : Nat) (fetch : String → Option (List RawRow))
    (topics : List String) : List ContentResult :=
  searchCategory maxResults fetch "Red Hat Videos" videoQueries topics deduplicateResults

/-! ### Topic extractor -/

/-- The twelve fixed topic buckets of `extractTopics` (lines 697-710). -/
def topicKeywords : List (String × List String) :=
  [("openshift", ["openshift", "kubernetes", "k8s", "containers", "orchestration", "pods", "deployment"]),
   ("ansible", ["ansible", "automation", "playbook", "configuration management", "infrastructure as code"]),
   ("rhel", ["rhel", "red hat enterprise linux", "linux", "system administration", "centos", "fedora"]),
   ("ai", ["ai", "artificial intelligence", "machine learning", "ml", "data science", "neural networks"]),
   ("cloud", ["cloud", "aws", "azure", "gcp", "hybrid cloud", "multi-cloud", "cloud native"]),
   ("security", ["security", "selinux", "compliance", "vulnerability", "cybersecurity", "encryption"]),
   ("networking", ["networking", "network", "tcp", "ip", "dns", "firewall", "load balancer"]),
   ("storage", ["storage", "ceph", "gluster", "persistent volume", "block storage", "object storage"]),
   ("monitoring", ["monitoring", "prometheus", "grafana", "observability", "metrics", "alerting"]),
   ("devops", ["devops", "ci/cd", "pipeline", "deployment", "continuous integration", "gitops"]),
   ("virtualization", ["virtualization", "vm", "virtual machine", "hypervisor", "kvm", "qemu"]),
   ("middleware", ["middleware", "jboss", "wildfly", "apache", "tomcat", "application server"])]

/-- The stopword list of the fallback branch (line 723). -/
def stopWords : List String :=
  ["want", "learn", "need", "help", "with", "about", "from", "that", "this", "they", "have", "will", "been"]

/-- The bucket names matched by the lowercased input: the for-loop of
lines 713-717 pushes a bucket name when one of its keywords occurs in the
input. -/
def matchedBuckets (input : List Char) : List String :=
  (topicKeywords.filter (fun p => p.2.any (fun kw => inclL input kw))).map Prod.fst

/-- Split into maximal non-whitespace runs; models `split(/\s+/)` up to the
possible leading empty token, which the length filter of the caller removes
anyway. The first argument accumulates the current word in reverse. -/
def wsTokensAux : List Char → List Char → List String
  | cur, [] => if cur.isEmpty then [] else [⟨cur.reverse⟩]
  | cur, c :: cs =>
    if c.isWhitespace then
      if cur.isEmpty then wsTokensAux [] cs
      else (⟨cur.reverse⟩ : String) :: wsTokensAux [] cs
    else wsTokensAux (c :: cur) cs

/-- The whitespace-separated tokens of a character list. -/
def wsTokens (l : List Char) : List String := wsTokensAux [] l

/-- The fallback branch of `extractTopics` (lines 720-726): the first three
whitespace-separated tokens of the lowercased input that are longer than three
characters and are not stopwords. -/
def fallbackTokens (input : List Char) : List String :=
  (((wsTokens input).filter (fun w => w.length > 3)).filter (fun w => !(stopWords.contains w))).take 3

/-- First-occurrence deduplication with an accumulator of seen values; models
the JavaScript `[...new Set(topics)]` of line 728, which keeps the first
occurrence of each element. -/
def dedupFirstAux (seen : List String) : List String → List String
  | [] => []
  | x :: xs =>
    if x ∈ seen then dedupFirstAux seen xs
    else x :: dedupFirstAux (x :: seen) xs

/-- Model of `extractTopics` (lines 693-729). -/
def extractTopics (userInput : String) : List String :=
  let input := lowerL userInput
  let topics := matchedBuckets input
  let topics := if topics.length = 0 then topics ++ fallbackTokens input else topics
  dedupFirstAux [] topics

/-! ### Learning path generator (llmService.js) -/

/-- JavaScript values as far as the learning-path parser observes them. The
`jsUndefined` constructor models `undefined` (in particular a missing property);
numbers are modelled by integers, which covers every numeral the service
manipulates. -/
inductive Json where
  | null
  | jsUndefined
  | bool (b : Bool)
  | num (n : Int)
  | str (s : String)
  | arr (elems : List Json)
  | obj (fields : List (String × Json))

/-- JavaScript truthiness of a value. -/
def truthy : Json → Bool
  | .null => false
  | .jsUndefined => false
  | .bool b => b
  | .num n => n ≠ 0
  | .str s => s ≠ ""
  | .arr _ => true
  | .obj _ => true

/-- JavaScript property access `v[key]`: the first matching field of an
object, `undefined` otherwise. -/
def getField (v : Json) (key : String) : Json :=
  match v with
  | .obj fields =>
    match fields.find? (fun p => p.1 = key) with
    | some p => p.2
    | none => .jsUndefined
  | _ => .jsUndefined

/-- The fixed fallback learning path of lines 239-265, annotated with the raw
model text and the parse error message. -/
def jsonFallback (response errMsg : String) : Json :=
  .obj
    [("title", .str "Custom Red Hat Learning Path"),
     ("description", .str "A personalized learning path based on your interests"),
     ("totalEstimatedTime", .str "4-8 weeks"),
     ("difficultyLevel", .str "Intermediate"),
     ("prerequisites", .arr [.str "Basic Linux knowledge"]),
     ("learningObjectives", .arr [.str "Gain proficiency in Red Hat technologies"]),
     ("phases", .arr
       [.obj
         [("phase", .num 1),
          ("title", .str "Foundation Phase"),
          ("description", .str "Build foundational knowledge"),
          ("estimatedTime", .str "2-3 weeks"),
          ("difficulty", .str "Beginner"),
          ("resources", .arr []),
          ("practiceActivities", .arr [.str "Hands-on labs", .str "Practice exercises"]),
          ("assessmentCriteria", .arr [.str "Complete all resources", .str "Demonstrate basic understanding"])]]),
     ("certificationPath", .obj
       [("recommended", .arr [.str "Red Hat Certified System Administrator (RHCSA)"]),
        ("sequence", .arr [.str "Start with RHCSA foundation"])]),
     ("nextSteps", .arr [.str "Continue with advanced topics", .str "Pursue additional certifications"]),
     ("rawResponse", .str response),
     ("parseError", .str errMsg)]

/-- The greedy brace extraction of line 220, the regex match
`\x7b[\s\S]*\x7d`: the slice from the first opening brace through the last
closing brace, when the latter comes after the former. -/
def braceSlice (s : String) : Option String :=
  let fromBrace := s.data.dropWhile (fun c => c ≠ Char.ofNat 123)
  let upToBrace := (fromBrace.reverse.dropWhile (fun c => c ≠ Char.ofNat 125)).reverse
  if upToBrace.isEmpty then none else some ⟨upToBrace⟩

/-- The cleaned response that is handed to `JSON.parse` (lines 217-223): trim,
then replace by the brace slice when one exists. -/
def cleanedResponse (response : String) : String :=
  let clean := (⟨trimL response.data⟩ : String)
  match braceSlice clean with
  | some m => m
  | none => clean

/-- Model of `parseLearningPathResponse` (lines 214-267). The oracle
`jsonParse` models `JSON.parse`: a parsed value or a thrown message. Every
throwing path of the source (parse failure, structure check failure, property
access on `null`) lands in the catch branch, which returns the fixed fallback
object; a property access on `null` or `undefined`, which in JavaScript
throws a TypeError before the structure check can fail, is modelled by the
falsy `jsUndefined` field value and therefore also lands in the fallback. -/
def parseLearningPathResponse (jsonParse : String → Except String Json)
    (response : String) : Json :=
  match jsonParse (cleanedResponse response) with
  | .error msg => jsonFallback response msg
  | .ok parsed =>
    if truthy (getField parsed "title") && truthy (getField parsed "phases") then parsed
    else jsonFallback response "Invalid learning path structure"

/-- Model of `generateLearningPath` (lines 39-75). The pair `health` is the
result of `checkOllamaHealth` (healthy flag and error message) and
`modelResponse` the outcome of the `ollama.generate` call. The inner throw on
an unhealthy service and any throw of the generate call are caught by the
outer catch, which rethrows with the `Failed to generate learning path: `
prefix; a successful generation is parsed and returned. -/
def generateLearningPath (jsonParse : String → Except String Json)
    (health : Bool × String) (modelResponse : Except String String) : Except String Json :=
  if health.1 = false then
    .error ("Failed to generate learning path: Ollama service unavailable: " ++ health.2)
  else
    match modelResponse with
    | .error e => .error ("Failed to generate learning path: " ++ e)
    | .ok response => .ok (parseLearningPathResponse jsonParse response)

/-! ### Spec-side predicates and concrete inputs used by the verification -/

/-- The lexicographic rank realized by the sort comparator: the official-domain
tier dominates, the content-type priority breaks ties. -/
def sortRank (r : ContentResult) : Nat :=
  (if inclL r.domain.data "redhat.com" then 0 else 10) + typeOrderOf r.type

/-- Spec-side relevance rule, following the specification text with the two
corrections the code forces: the video-hosting exception triggers on the URL
containing `youtube.com`, and the flagship product names count only in the
title while the brand name counts in title or description. Outside the
exception, relevance is a keyword occurrence in the concatenated lowercase
text or a host on the official allowlist. -/
def isRelatedSpec (title url description : String) : Prop :=
  let content := contentOf title url description
  let keywordHit := ∃ k ∈ redhatKeywords, k.data <:+: content
  if isInfixB "youtube.com".data url.data then
    keywordHit ∧
      ("red hat".data <:+: lowerL title ∨ "red hat".data <:+: lowerL description ∨
       "openshift".data <:+: lowerL title ∨ "ansible".data <:+: lowerL title)
  else
    keywordHit ∨ ∃ d ∈ redhatDomains, extractDomain url = d

/-- Spec-side rendition of the relevance rule exactly as the claim words it:
on the video-hosting domain the brand name or one of the two flagship product
names may appear in the title or in the description. -/
def isRelatedClaim (title url description : String) : Prop :=
  let content := contentOf title url description
  let keywordHit := ∃ k ∈ redhatKeywords, k.data <:+: content
  let hostOnAllowlist := ∃ d ∈ redhatDomains, extractDomain url = d
  if extractDomain url = "youtube.com" then
    (keywordHit ∨ hostOnAllowlist) ∧
      ("red hat".data <:+: lowerL title ∨ "red hat".data <:+: lowerL description ∨
       "openshift".data <:+: lowerL title ∨ "openshift".data <:+: lowerL description ∨
       "ansible".data <:+: lowerL title ∨ "ansible".data <:+: lowerL description)
  else
    keywordHit ∨ hostOnAllowlist

/-- A valid non-official article used to exhibit the reordering performed by
the final sort of `deduplicateResults`. -/
def c3Article : ContentResult :=
  { title := "alpha", url := "https://a.example.com/", description := "",
    type := "article", source := "Red Hat Docs", searchQuery := "q",
    domain := "a.example.com" }

/-- A valid non-official video with a distinct deduplication key. -/
def c3Video : ContentResult :=
  { title := "beta", url := "https://b.example.com/", description := "",
    type := "video", source := "Red Hat Videos", searchQuery := "q",
    domain := "b.example.com" }

/-- An article on an official domain. -/
def c8Article : ContentResult :=
  { title := "alpha", url := "https://docs.redhat.com/a", description := "",
    type := "article", source := "Red Hat Docs", searchQuery := "q",
    domain := "docs.redhat.com" }

/-- A video on a non-official domain. -/
def c8Video : ContentResult :=
  { title := "beta", url := "https://b.example.com/", description := "",
    type := "video", source := "Red Hat Videos", searchQuery := "q",
    domain := "b.example.com" }

/-- A fetch oracle for the training search on the topic `ansible`: the first
query fails with a network error, the second would return one row. -/
def c4Fetch : String → Option (List RawRow) := fun q =>
  if q = "\"Red Hat training\" \"ansible\"" then none
  else if q = "\"Red Hat certification\" \"ansible\"" then
    some [{ title := "Red Hat Certification Overview",
            url := "https://www.redhat.com/en/services/certification",
            description := "Learn about Red Hat certification paths" }]
  else some []

/-- The processed result that the certification query of `c4Fetch` yields. -/
def c4Expected : ContentResult :=
  { title := "Red Hat Certification Overview",
    url := "https://www.redhat.com/en/services/certification",
    description := "Learn about Red Hat certification paths",
    type := "training", source := "Red Hat Training",
    searchQuery := "\"Red Hat certification\" \"ansible\"",
    domain := "www.redhat.com" }

/-- A fetch oracle returning one row whose raw title consists only of
characters that `cleanTitle` strips. -/
def c9Fetch : String → Option (List RawRow) := fun _ =>
  some [{ title := "@@@", url := "https://docs.redhat.com/x", description := "d" }]

/-- A well-formed result used to instantiate the retained-results invariant. -/
def c9Good : ContentResult :=
  { title := "alpha", url := "https://a.example.com/", description := "",
    type := "article", source := "Red Hat Docs", searchQuery := "q",
    domain := "a.example.com" }

/-- A JSON-parse oracle that always fails, modelling a model reply that is not
parsable as JSON. -/
def c1Parse : String → Except String Json := fun _ =>
  .error "Unexpected token"

/-! ### Helper lemmas -/

theorem isPrefixB_iff : ∀ n l : List Char, isPrefixB n l = true ↔ n <+: l
  | [], l => by simp [isPrefixB]
  | a :: as, [] => by simp [isPrefixB]
  | a :: as, b :: bs => by
    simp [isPrefixB, List.cons_prefix_cons, isPrefixB_iff as bs]

theorem isInfixB_iff : ∀ n l : List Char, isInfixB n l = true ↔ n <:+: l
  | n, [] => by simp [isInfixB, List.isEmpty_iff]
  | n, b :: bs => by
    rw [isInfixB, Bool.or_eq_true, isPrefixB_iff, isInfixB_iff n bs, List.infix_cons_iff]

theorem inclL_iff (hay : List Char) (n : String) : inclL hay n = true ↔ n.data <:+: hay :=
  isInfixB_iff n.data hay

theorem dedupSurvivors_mem_props (seen : List String) (xs : List ContentResult) :
    ∀ r ∈ dedupSurvivors seen xs, (r.title ≠ "" ∧ r.url ≠ "") ∧ dedupKey r ∉ seen := by
  induction xs generalizing seen with
  | nil => simp [dedupSurvivors]
  | cons x rest ih =>
    intro r hr
    rw [dedupSurvivors] at hr
    split at hr
    · exact ih seen r hr
    · split at hr
      · exact ih seen r hr
      · rcases List.mem_cons.mp hr with rfl | hr'
        · rename_i hval hseen
          exact ⟨⟨fun h => hval (Or.inl h), fun h => hval (Or.inr h)⟩, hseen⟩
        · have h2 := ih (dedupKey x :: seen) r hr'
          exact ⟨h2.1, fun hs => h2.2 (List.mem_cons_of_mem _ hs)⟩

theorem dedupSurvivors_pairwise (seen : List String) (xs : List ContentResult) :
    (dedupSurvivors seen xs).Pairwise (fun a b => dedupKey a ≠ dedupKey b) := by
  induction xs generalizing seen with
  | nil => simp [dedupSurvivors]
  | cons x rest ih =>
    rw [dedupSurvivors]
    split
    · exact ih seen
    · split
      · exact ih seen
      · refine List.Pairwise.cons ?_ (ih (dedupKey x :: seen))
        intro b hb he
        exact (dedupSurvivors_mem_props _ _ b hb).2 (by rw [← he]; exact List.mem_cons_self _ _)

theorem dedupSurvivors_eq_self (seen : List String) (xs : List ContentResult)
    (hmem : ∀ r ∈ xs, (r.title ≠ "" ∧ r.url ≠ "") ∧ dedupKey r ∉ seen)
    (hpw : xs.Pairwise (fun a b => dedupKey a ≠ dedupKey b)) :
    dedupSurvivors seen xs = xs := by
  induction xs generalizing seen with
  | nil => rfl
  | cons x rest ih =>
    have hx := hmem x (List.mem_cons_self _ _)
    rw [dedupSurvivors, if_neg (fun h => h.elim hx.1.1 hx.1.2), if_neg hx.2]
    congr 1
    refine ih (dedupKey x :: seen) ?_ (List.pairwise_cons.mp hpw).2
    intro r hr
    refine ⟨(hmem r (List.mem_cons_of_mem _ hr)).1, ?_⟩
    intro hs
    rcases List.mem_cons.mp hs with he | hs'
    · exact (List.pairwise_cons.mp hpw).1 r hr he.symm
    · exact (hmem r (List.mem_cons_of_mem _ hr)).2 hs'

theorem dedupSurvivors_sublist (seen : List String) (xs : List ContentResult) :
    List.Sublist (dedupSurvivors seen xs) xs := by
  induction xs generalizing seen with
  | nil => simp [dedupSurvivors]
  | cons x rest ih =>
    rw [dedupSurvivors]
    split
    · exact (ih seen).cons x
    · split
      · exact (ih seen).cons x
      · exact (ih (dedupKey x :: seen)).cons₂ x

theorem dedupFirstAux_mem (seen : List String) (l : List String) :
    ∀ x ∈ dedupFirstAux seen l, x ∉ seen := by
  induction l generalizing seen with
  | nil => simp [dedupFirstAux]
  | cons a l ih =>
    intro x hx
    rw [dedupFirstAux] at hx
    split at hx
    · exact ih seen x hx
    · rcases List.mem_cons.mp hx with rfl | hx'
      · rename_i h
        exact h
      · exact fun hs => ih (a :: seen) x hx' (List.mem_cons_of_mem _ hs)

theorem dedupFirstAux_nodup (seen : List String) (l : List String) :
    (dedupFirstAux seen l).Nodup := by
  induction l generalizing seen with
  | nil => simp [dedupFirstAux]
  | cons a l ih =>
    rw [dedupFirstAux]
    split
    · exact ih seen
    · refine List.Pairwise.cons ?_ (ih (a :: seen))
      intro b hb he
      exact dedupFirstAux_mem _ _ b hb (by rw [← he]; exact List.mem_cons_self _ _)

theorem dedupFirstAux_eq_self :
    ∀ (l : List String), l.Nodup → ∀ seen, (∀ x ∈ l, x ∉ seen) → dedupFirstAux seen l = l
  | [], _, _, _ => rfl
  | a :: l, hn, seen, hs => by
    rw [dedupFirstAux, if_neg (hs a (List.mem_cons_self _ _))]
    congr 1
    refine dedupFirstAux_eq_self l (List.Nodup.of_cons hn) (a :: seen) ?_
    intro x hx hmem
    rcases List.mem_cons.mp hmem with rfl | h'
    · exact (List.pairwise_cons.mp hn).1 x hx rfl
    · exact hs x (List.mem_cons_of_mem _ hx) h'

theorem matchedBuckets_nodup (input : List Char) : (matchedBuckets input).Nodup := by
  have hsub : List.Sublist (matchedBuckets input) (topicKeywords.map Prod.fst) :=
    List.Sublist.map Prod.fst (List.filter_sublist topicKeywords)
  exact List.Nodup.sublist hsub (by decide)

theorem typeOrderOf_bounds (t : String) : 1 ≤ typeOrderOf t ∧ typeOrderOf t ≤ 6 := by
  unfold typeOrderOf
  repeat' split
  all_goals omega

theorem compareResults_le_iff (a b : ContentResult) :
    compareResults a b ≤ 0 ↔ sortRank a ≤ sortRank b := by
  unfold compareResults sortRank
  have ha := typeOrderOf_bounds a.type
  have hb := typeOrderOf_bounds b.type
  by_cases h1 : inclL a.domain.data "redhat.com" = true <;>
    by_cases h2 : inclL b.domain.data "redhat.com" = true <;>
      simp [h1, h2] <;> omega

theorem dedupSurvivors_mem_iff (seen : List String) (xs : List ContentResult)
    (r : ContentResult) :
    r ∈ dedupSurvivors seen xs ↔
      (r.title ≠ "" ∧ r.url ≠ "") ∧ dedupKey r ∉ seen ∧
      ∃ pre post, xs = pre ++ r :: post ∧
        ∀ q ∈ pre, (q.title ≠ "" ∧ q.url ≠ "") → dedupKey q ≠ dedupKey r := by
  induction xs generalizing seen with
  | nil => simp [dedupSurvivors]
  | cons x rest ih =>
    rw [dedupSurvivors]
    split
    · rename_i hval
      rw [ih seen]
      constructor
      · rintro ⟨hv, hs, pre, post, heq, hpre⟩
        refine ⟨hv, hs, x :: pre, post, by rw [heq]; rfl, ?_⟩
        intro q hq hqv
        rcases List.mem_cons.mp hq with rfl | hq'
        · exact (hval.elim hqv.1 hqv.2).elim
        · exact hpre q hq' hqv
      · rintro ⟨hv, hs, pre, post, heq, hpre⟩
        cases pre with
        | nil =>
          injection heq with h1 h2
          subst h1
          exact (hval.elim hv.1 hv.2).elim
        | cons p pre' =>
          injection heq with h1 h2
          subst h1
          exact ⟨hv, hs, pre', post, h2, fun q hq hqv => hpre q (List.mem_cons_of_mem _ hq) hqv⟩
    · rename_i hval
      split
      · rename_i hks'
        rw [ih seen]
        constructor
        · rintro ⟨hv, hs, pre, post, heq, hpre⟩
          refine ⟨hv, hs, x :: pre, post, by rw [heq]; rfl, ?_⟩
          intro q hq hqv
          rcases List.mem_cons.mp hq with rfl | hq'
          · intro he
            exact hs (he ▸ hks')
          · exact hpre q hq' hqv
        · rintro ⟨hv, hs, pre, post, heq, hpre⟩
          cases pre with
          | nil =>
            injection heq with h1 h2
            subst h1
            exact (hs hks').elim
          | cons p pre' =>
            injection heq with h1 h2
            subst h1
            exact ⟨hv, hs, pre', post, h2, fun q hq hqv => hpre q (List.mem_cons_of_mem _ hq) hqv⟩
      · rename_i hks'
        rw [List.mem_cons, ih (dedupKey x :: seen)]
        constructor
        · rintro (rfl | ⟨hv, hs, pre, post, heq, hpre⟩)
          · exact ⟨⟨fun h => hval (Or.inl h), fun h => hval (Or.inr h)⟩, hks', [], rest, rfl,
              by simp⟩
          · refine ⟨hv, fun h => hs (List.mem_cons_of_mem _ h), x :: pre, post,
              by rw [heq]; rfl, ?_⟩
            intro q hq hqv
            rcases List.mem_cons.mp hq with rfl | hq'
            · intro he
              exact hs (by rw [← he]; exact List.mem_cons_self _ _)
            · exact hpre q hq' hqv
        · rintro ⟨hv, hs, pre, post, heq, hpre⟩
          cases pre with
          | nil =>
            injection heq with h1 h2
            exact Or.inl h1.symm
          | cons p pre' =>
            injection heq with h1 h2
            subst h1
            right
            refine ⟨hv, ?_, pre', post, h2,
              fun q hq hqv => hpre q (List.mem_cons_of_mem _ hq) hqv⟩
            intro hmem
            rcases List.mem_cons.mp hmem with he | h'
            · exact hpre x (List.mem_cons_self _ _)
                ⟨fun h => hval (Or.inl h), fun h => hval (Or.inr h)⟩ he.symm
            · exact hs h'

theorem hostOf_within (rest : List Char) : hostOf rest <:+: rest := by
  have h3 : (rest.takeWhile (fun c => !(c = '/' || c = '?' || c = '#'))) <+: rest :=
    List.takeWhile_prefix _
  have h2 : (((rest.takeWhile (fun c => !(c = '/' || c = '?' || c = '#'))).reverse.takeWhile
      (fun c => c ≠ '@')).reverse) <:+
      (rest.takeWhile (fun c => !(c = '/' || c = '?' || c = '#'))) := by
    rw [← List.reverse_prefix, List.reverse_reverse]
    exact List.takeWhile_prefix _
  have h1 : hostOf rest <+:
      (((rest.takeWhile (fun c => !(c = '/' || c = '?' || c = '#'))).reverse.takeWhile
        (fun c => c ≠ '@')).reverse) :=
    List.takeWhile_prefix _
  exact (h1.isInfix.trans h2.isInfix).trans h3.isInfix

theorem extractDomain_within (url : String) (h : extractDomain url ≠ "unknown") :
    (extractDomain url).data <:+: lowerL url := by
  rw [extractDomain] at h ⊢
  dsimp only at h ⊢
  split_ifs at h ⊢
  any_goals exact absurd rfl h
  · exact (hostOf_within _).trans (List.IsSuffix.isInfix (List.drop_suffix _ _))
  · exact (hostOf_within _).trans (List.IsSuffix.isInfix (List.drop_suffix _ _))
  · exact (hostOf_within _).trans (List.IsSuffix.isInfix List.nil_suffix)

theorem lowerL_infix_content (t u d : String) : lowerL u <:+: contentOf t u d :=
  ⟨lowerL t ++ [' '], ' ' :: lowerL d, by simp [contentOf]⟩

theorem redhatDomains_keyword :
    ∀ d ∈ redhatDomains, ∃ k ∈ redhatKeywords, k.data <:+: d.data := by decide

/-! ### Claim theorems -/

/-- C7: extractTopics conforms to its keyword-bucket definition: the output is
duplicate-free; when at least one bucket matches it is exactly the list of
matching bucket names; when none matches it is the deduplicated list of the
first three long non-stopword tokens; and the two concrete examples of the
specification evaluate as stated. -/
theorem extractTopics_spec :
    (∀ input, (extractTopics input).Nodup) ∧
    (∀ input, matchedBuckets (lowerL input) ≠ [] →
      extractTopics input = matchedBuckets (lowerL input)) ∧
    (∀ input, matchedBuckets (lowerL input) = [] →
      extractTopics input = dedupFirstAux [] (fallbackTokens (lowerL input))) ∧
    extractTopics "I want to learn OpenShift and Kubernetes" = ["openshift"] ∧
    extractTopics "purple elephants dancing" = ["purple", "elephants", "dancing"] := by
  refine ⟨fun input => dedupFirstAux_nodup _ _, ?_, ?_, by decide, by decide⟩
  · intro input h
    rw [extractTopics, if_neg (by simpa [List.length_eq_zero] using h)]
    exact dedupFirstAux_eq_self _ (matchedBuckets_nodup _) [] (by simp)
  · intro input h
    rw [extractTopics, if_pos (by simp [h]), h]
    rfl

/-- C7 witness: the bucket branch instantiated at a concrete input. -/
theorem extractTopics_spec_witness :
    extractTopics "openshift tips" = matchedBuckets (lowerL "openshift tips") :=
  extractTopics_spec.2.1 "openshift tips" (by decide)

/-- C5 (amended): determineContentType is total and returns one of the six
labels for every URL/title pair, and the empty URL is mapped to unknown; a
non-empty malformed URL is classified by the substring heuristics instead. -/
theorem determineContentType_total (url title : String) :
    determineContentType url title ∈
      (["video", "documentation", "training", "article", "pdf", "unknown"] : List String) ∧
    (url = "" → determineContentType url title = "unknown") := by
  constructor
  · unfold determineContentType
    dsimp only
    repeat' split
    all_goals simp
  · intro h
    rw [determineContentType, if_pos h]

/-- C5 witness: the empty URL evaluates to unknown and is one of the labels. -/
theorem determineContentType_total_witness :
    determineContentType "" "x" ∈
      (["video", "documentation", "training", "article", "pdf", "unknown"] : List String) ∧
    determineContentType "" "x" = "unknown" :=
  ⟨(determineContentType_total "" "x").1, (determineContentType_total "" "x").2 rfl⟩

/-- C5 counterexample: a non-empty malformed URL is not mapped to unknown; it
falls through every heuristic to article. -/
theorem determineContentType_malformed :
    determineContentType "::::" "x" = "article" ∧ ("article" : String) ≠ "unknown" := by
  exact ⟨by decide, by decide⟩

/-- C10: parseLearningPathResponse is total and never raises: for every
JSON-parse oracle and every input string the result has truthy (hence present
and non-null) title and phases fields, and it is either the parsed model
value (accepted only with both fields truthy) or the fixed fallback object. -/
theorem parseLearningPathResponse_total (jsonParse : String → Except String Json)
    (response : String) :
    truthy (getField (parseLearningPathResponse jsonParse response) "title") = true ∧
    truthy (getField (parseLearningPathResponse jsonParse response) "phases") = true ∧
    ((∃ parsed, jsonParse (cleanedResponse response) = .ok parsed ∧
        parseLearningPathResponse jsonParse response = parsed) ∨
      ∃ msg, parseLearningPathResponse jsonParse response = jsonFallback response msg) := by
  cases h : jsonParse (cleanedResponse response) with
  | error msg =>
    have he : parseLearningPathResponse jsonParse response = jsonFallback response msg := by
      rw [parseLearningPathResponse, h]
    rw [he]
    exact ⟨rfl, rfl, Or.inr ⟨msg, rfl⟩⟩
  | ok parsed =>
    by_cases hb : (truthy (getField parsed "title") && truthy (getField parsed "phases")) = true
    · have he : parseLearningPathResponse jsonParse response = parsed := by
        rw [parseLearningPathResponse, h]
        exact if_pos hb
      have hb' := hb
      simp only [Bool.and_eq_true] at hb'
      rw [he]
      exact ⟨hb'.1, hb'.2, Or.inl ⟨parsed, rfl, rfl⟩⟩
    · have he : parseLearningPathResponse jsonParse response =
          jsonFallback response "Invalid learning path structure" := by
        rw [parseLearningPathResponse, h]
        exact if_neg hb
      rw [he]
      exact ⟨rfl, rfl, Or.inr ⟨"Invalid learning path structure", rfl⟩⟩

/-- C1 (amended): an unparsable model reply or a reply missing the required
keys yields the fixed fallback annotated with the raw text and the error
message, while an unavailable model (or a failing generate call) makes
generateLearningPath raise the prefixed error to the caller. -/
theorem generateLearningPath_spec :
    (∀ jsonParse err modelResponse,
      generateLearningPath jsonParse (false, err) modelResponse =
        .error ("Failed to generate learning path: Ollama service unavailable: " ++ err)) ∧
    (∀ jsonParse herr e,
      generateLearningPath jsonParse (true, herr) (.error e) =
        .error ("Failed to generate learning path: " ++ e)) ∧
    (∀ jsonParse herr response,
      generateLearningPath jsonParse (true, herr) (.ok response) =
        .ok (parseLearningPathResponse jsonParse response)) ∧
    (∀ jsonParse response msg, jsonParse (cleanedResponse response) = .error msg →
      parseLearningPathResponse jsonParse response = jsonFallback response msg) ∧
    (∀ jsonParse response parsed, jsonParse (cleanedResponse response) = .ok parsed →
      (truthy (getField parsed "title") && truthy (getField parsed "phases")) = false →
      parseLearningPathResponse jsonParse response =
        jsonFallback response "Invalid learning path structure") ∧
    (∀ response msg,
      getField (jsonFallback response msg) "title" = .str "Custom Red Hat Learning Path" ∧
      getField (jsonFallback response msg) "rawResponse" = .str response ∧
      getField (jsonFallback response msg) "parseError" = .str msg ∧
      getField (jsonFallback response msg) "phases" = .arr
        [.obj [("phase", .num 1), ("title", .str "Foundation Phase"),
               ("description", .str "Build foundational knowledge"),
               ("estimatedTime", .str "2-3 weeks"), ("difficulty", .str "Beginner"),
               ("resources", .arr []),
               ("practiceActivities", .arr [.str "Hands-on labs", .str "Practice exercises"]),
               ("assessmentCriteria", .arr
                 [.str "Complete all resources", .str "Demonstrate basic understanding"])]] ∧
      getField (jsonFallback response msg) "certificationPath" = .obj
        [("recommended", .arr [.str "Red Hat Certified System Administrator (RHCSA)"]),
         ("sequence", .arr [.str "Start with RHCSA foundation"])]) := by
  refine ⟨fun jsonParse err modelResponse => rfl, fun jsonParse herr e => rfl,
    fun jsonParse herr response => rfl, ?_, ?_, fun response msg => ⟨rfl, rfl, rfl, rfl, rfl⟩⟩
  · intro jsonParse response msg h
    rw [parseLearningPathResponse, h]
  · intro jsonParse response parsed h hb
    rw [parseLearningPathResponse, h]
    simp [hb]

/-- C1 witness: a reply that fails to parse yields the annotated fallback. -/
theorem generateLearningPath_spec_witness :
    parseLearningPathResponse c1Parse "hello" = jsonFallback "hello" "Unexpected token" :=
  generateLearningPath_spec.2.2.2.1 c1Parse "hello" "Unexpected token" rfl

/-- C1 counterexample: with the model unavailable, generateLearningPath raises
the prefixed error instead of returning the fallback learning path. -/
theorem generateLearningPath_unavailable_raises :
    generateLearningPath c1Parse (false, "Model llama3.2:latest not found") (.ok "model text") =
      .error "Failed to generate learning path: Ollama service unavailable: Model llama3.2:latest not found" :=
  rfl

/-- C4: on the concrete failing input, the failed first training query makes
the per-topic loop abort, so the second query of the same topic is skipped
and the category search returns nothing, even though that query alone would
have contributed a result. -/
theorem searchRedHatTraining_skips_remaining_query :
    searchRedHatTraining 15 c4Fetch ["ansible"] = [] ∧
    performDuckDuckGoSearch 15 c4Fetch "Red Hat Training" "\"Red Hat certification\" \"ansible\"" =
      some [c4Expected] := by
  exact ⟨by decide, by decide⟩

/-- C2: deduplication is idempotent: deduplicating an already deduplicated
list returns it unchanged. -/
theorem deduplicateResults_idempotent (xs : List ContentResult) :
    deduplicateResults (deduplicateResults xs) = deduplicateResults xs := by
  unfold deduplicateResults
  have hperm : (List.insertionSort resultLE (dedupSurvivors [] xs)).Perm
      (dedupSurvivors [] xs) :=
    List.perm_insertionSort resultLE (dedupSurvivors [] xs)
  have hvalid : ∀ r ∈ List.insertionSort resultLE (dedupSurvivors [] xs),
      (r.title ≠ "" ∧ r.url ≠ "") ∧ dedupKey r ∉ ([] : List String) :=
    fun r hr => dedupSurvivors_mem_props [] xs r (hperm.subset hr)
  have hpw : (List.insertionSort resultLE (dedupSurvivors [] xs)).Pairwise
      (fun a b => dedupKey a ≠ dedupKey b) :=
    (hperm.pairwise_iff (fun hab => hab.symm)).mpr (dedupSurvivors_pairwise [] xs)
  rw [dedupSurvivors_eq_self [] _ hvalid hpw]
  exact List.Sorted.insertionSort_eq (List.sorted_insertionSort resultLE _)

/-- C3 (amended): the pre-sort pass of deduplicateResults keeps exactly the
first valid result per deduplication key, in input order (its output is a
sublist of the input), and the final output is a permutation of these
first-occurrence survivors, reordered by the relevance sort. -/
theorem deduplicateResults_first_seen :
    (∀ xs : List ContentResult, List.Sublist (dedupSurvivors [] xs) xs) ∧
    (∀ (xs : List ContentResult) (r : ContentResult),
      r ∈ dedupSurvivors [] xs ↔
        (r.title ≠ "" ∧ r.url ≠ "") ∧
        ∃ pre post, xs = pre ++ r :: post ∧
          ∀ q ∈ pre, (q.title ≠ "" ∧ q.url ≠ "") → dedupKey q ≠ dedupKey r) ∧
    (∀ xs : List ContentResult, (deduplicateResults xs).Perm (dedupSurvivors [] xs)) := by
  refine ⟨fun xs => dedupSurvivors_sublist [] xs, ?_,
    fun xs => List.perm_insertionSort resultLE (dedupSurvivors [] xs)⟩
  intro xs r
  have h := dedupSurvivors_mem_iff [] xs r
  simpa using h

/-- C3 witness: the first-occurrence characterization instantiated on a
concrete two-element list with a duplicated key. -/
theorem deduplicateResults_first_seen_witness :
    c3Article ∈ dedupSurvivors [] [c3Article, c3Article] ∧
    List.Sublist (dedupSurvivors [] [c3Article, c3Article]) [c3Article, c3Article] :=
  ⟨(deduplicateResults_first_seen.2.1 [c3Article, c3Article] c3Article).mpr
      ⟨by decide, [], [c3Article], rfl, by simp⟩,
    deduplicateResults_first_seen.1 [c3Article, c3Article]⟩

/-- C3 counterexample: two valid results with distinct keys survive but the
final sort emits them in the opposite of their input order, so
deduplicateResults does not preserve first-seen order in its output. -/
theorem deduplicateResults_reorders :
    deduplicateResults [c3Article, c3Video] = [c3Video, c3Article] ∧
    c3Article ≠ c3Video := by
  exact ⟨by decide, by decide⟩

/-- C8: the final sort places official-domain results before all others and,
within a tier, orders by the fixed content-type priority; in particular an
official-domain article sorts before a non-official video. -/
theorem deduplicateResults_sorted :
    (∀ xs : List ContentResult, (deduplicateResults xs).Pairwise (fun a b =>
      (inclL a.domain.data "redhat.com" = false → inclL b.domain.data "redhat.com" = false) ∧
      (inclL a.domain.data "redhat.com" = inclL b.domain.data "redhat.com" →
        typeOrderOf a.type ≤ typeOrderOf b.type))) ∧
    deduplicateResults [c8Video, c8Article] = [c8Article, c8Video] := by
  constructor
  · intro xs
    have hs : (deduplicateResults xs).Pairwise resultLE :=
      List.sorted_insertionSort resultLE (dedupSurvivors [] xs)
    refine hs.imp ?_
    intro a b hab
    have hab' : sortRank a ≤ sortRank b := (compareResults_le_iff a b).mp hab
    have ha := typeOrderOf_bounds a.type
    have hb := typeOrderOf_bounds b.type
    unfold sortRank at hab'
    by_cases h1 : inclL a.domain.data "redhat.com" = true <;>
      by_cases h2 : inclL b.domain.data "redhat.com" = true <;>
        simp [h1, h2] at hab' ⊢ <;> omega
  · decide

/-- C9 (amended): every result retained by deduplicateResults has a non-empty
title and URL, and the scraping loop only emits rows whose raw title and URL
are non-empty; the stored URL is therefore non-empty, though the stored
cleaned title can be empty. -/
theorem retained_results_nonempty :
    (∀ (xs : List ContentResult) (r : ContentResult), r ∈ deduplicateResults xs →
      r.title ≠ "" ∧ r.url ≠ "") ∧
    (∀ (source query : String) (row : RawRow) (r : ContentResult),
      processRow source query row = some r → row.title ≠ "" ∧ r.url ≠ "") := by
  constructor
  · intro xs r hr
    have hmem : r ∈ dedupSurvivors [] xs :=
      (List.perm_insertionSort resultLE (dedupSurvivors [] xs)).subset hr
    exact (dedupSurvivors_mem_props [] xs r hmem).1
  · intro source query row r h
    rw [processRow] at h
    split at h
    · rename_i hc
      injection h with h1
      exact ⟨hc.1, by rw [← h1]; exact hc.2.1⟩
    · exact absurd h (by simp)

/-- C9 witness: the invariant instantiated on a concrete singleton input. -/
theorem retained_results_nonempty_witness :
    c9Good.title ≠ "" ∧ c9Good.url ≠ "" :=
  retained_results_nonempty.1 [c9Good] c9Good (by decide)

/-- C9 counterexample: a raw title made only of stripped characters passes the
guard but is stored as the empty cleaned title, so performDuckDuckGoSearch can
emit a result whose title is empty. -/
theorem performDuckDuckGoSearch_empty_title :
    Option.map (List.map ContentResult.title)
      (performDuckDuckGoSearch 15 c9Fetch "Red Hat Docs" "q") = some [""] := by
  decide

/-- C6 (amended): isRedHatRelated returns true exactly when the concatenated
lowercase text contains a fixed keyword or the URL host is on the official
allowlist, except that a URL containing youtube.com requires the keyword hit
and additionally the brand name in title or description or a flagship product
name in the title. -/
theorem isRedHatRelated_spec (title url description : String) :
    isRedHatRelated title url description = true ↔ isRelatedSpec title url description := by
  unfold isRedHatRelated isRelatedSpec
  dsimp only
  by_cases hyt : isInfixB "youtube.com".data url.data = true
  · rw [if_pos hyt, if_pos hyt]
    simp only [Bool.and_eq_true, Bool.or_eq_true, List.any_eq_true, inclL_iff]
    tauto
  · rw [if_neg hyt, if_neg hyt]
    simp only [Bool.or_eq_true, List.any_eq_true, inclL_iff]
    constructor
    · rintro (⟨k, hk, hik⟩ | ⟨d, hd, hid⟩)
      · exact Or.inl ⟨k, hk, hik⟩
      · obtain ⟨k, hk, hkd⟩ := redhatDomains_keyword d hd
        exact Or.inl ⟨k, hk, (hkd.trans hid).trans (lowerL_infix_content title url description)⟩
    · rintro (⟨k, hk, hik⟩ | ⟨d, hd, hdom⟩)
      · exact Or.inl ⟨k, hk, hik⟩
      · right
        refine ⟨d, hd, ?_⟩
        have hne : extractDomain url ≠ "unknown" := by
          intro he
          have hdu : d = "unknown" := hdom.symm.trans he
          rw [hdu] at hd
          exact absurd hd (by decide)
        have hinf := extractDomain_within url hne
        rw [hdom] at hinf
        exact hinf

/-- C6 witness: the equivalence instantiated at a concrete related input. -/
theorem isRedHatRelated_spec_witness :
    isRelatedSpec "Red Hat RHEL" "https://docs.redhat.com/x" "" :=
  (isRedHatRelated_spec "Red Hat RHEL" "https://docs.redhat.com/x" "").mp (by decide)

/-- C6 counterexample: on a YouTube URL whose description mentions a flagship
product while the title does not, the code rejects the result although the
claimed rule (flagship name in title or description) accepts it. -/
theorem isRedHatRelated_youtube_counterexample :
    isRedHatRelated "Cool k8s video" "https://youtube.com/watch" "all about openshift clusters"
      = false ∧
    isRelatedClaim "Cool k8s video" "https://youtube.com/watch" "all about openshift clusters" := by
  constructor
  · decide
  · unfold isRelatedClaim
    dsimp only
    rw [if_pos (by decide : extractDomain "https://youtube.com/watch" = "youtube.com")]
    exact ⟨Or.inl ⟨"openshift", by decide, by decide⟩,
      Or.inr (Or.inr (Or.inr (Or.inl (by decide))))⟩

end GenerateContent
